import Mathlib

/-!
Verification of the wdydoc document model, serialization codec, file-transform
dispatch and build orchestrator.

The Go sources are embedded shallowly:
  * the polymorphic `Discriminator` tree (model.go) becomes the mutual
    inductive `Node` / `NodeList`;
  * Go's dynamic `interface{}` values that flow through the codec
    (`map[string]interface{}`, `[]interface{}`, `string`, `int`, `int64`,
    `float64`, `[]string`, `nil`) become the inductive `GoVal`;
  * the codec helpers of util.go (`optString`, `optInt`, `optStringSlice`,
    `assertObjList`, `fromJson`) are translated function by function;
  * a failed Go type assertion or a `panic` is modelled as `Option.none`
    (the Go codec never returns a typed error: its only failure mode is a
    panic, so `none` always means "aborts");
  * `encoding/json` marshalling followed by unmarshalling is modelled by
    `jsonRT`, which maps every value produced by `toJson` to the value
    `json.Unmarshal` would hand back: all Go numbers come back as `float64`
    and every slice comes back as `[]interface{}`.
-/

set_option maxHeartbeats 1000000
set_option maxRecDepth 100000

namespace Wdydoc

/-! ## Discriminator string constants (util.go) -/

def typeAttrName : String := "type"

def WorkspaceType : String := "workspace"

def DocumentType : String := "document"

def ChapterType : String := "chapter"

def AuthorType : String := "author"

def NewlineType : String := "newline"

def NewpageType : String := "newpage"

def ItalicType : String := "italic"

def BoldType : String := "bold"

def UnderlineType : String := "underline"

def CodeType : String := "code"

def ImageType : String := "image"

def TOCType : String := "toc"

def TitlepageType : String := "titlepage"

def TextType : String := "text"

/-- The closed registry of the fourteen discriminators `fromJson` dispatches on. -/
def registry : List String :=
  [WorkspaceType, DocumentType, AuthorType, ChapterType, TextType, TOCType,
   NewlineType, ItalicType, BoldType, UnderlineType, CodeType, ImageType,
   TitlepageType, NewpageType]

/-! ## The document model (model.go) -/

/-- Author (model.go): first name, last name, email. -/
structure Author where
  firstname : String
  lastname : String
  email : String
deriving DecidableEq, Repr

/-- The four `defaultBody` wrappers of model.go (Italic, Bold, Underline, TitlePage).
The Go struct stores the discriminator as a string field, but the public
constructors only ever produce these four names. -/
inductive GroupKind where
  | italic
  | bold
  | underline
  | titlepage
deriving DecidableEq, Repr

/-- The three `defaultType` markers of model.go (Newline, Newpage, TOC). -/
inductive MarkerKind where
  | newline
  | newpage
  | toc
deriving DecidableEq, Repr

mutual

/-- The polymorphic document tree: one constructor per Go `Discriminator`
implementation of model.go (Workspace, Document, Author, Chapter, Span,
Code, Image, the `defaultBody` group wrappers and the `defaultType` markers). -/
inductive Node where
  | workspace (format : Int) (version : String) (title : String) (resources : NodeList)
  | document (id : String) (title : String) (authors : List Author) (body : NodeList)
  | author (a : Author)
  | chapter (title : String) (level : Int) (body : NodeList)
  | span (value : String)
  | code (hint : String) (lines : List String)
  | image (src : String) (width : String) (height : String)
  | group (kind : GroupKind) (body : NodeList)
  | marker (kind : MarkerKind)

/-- Ordered list of child nodes (a Go `[]Discriminator`). -/
inductive NodeList where
  | nil
  | cons (head : Node) (tail : NodeList)

end

def GroupKind.name : GroupKind → String
  | .italic => ItalicType
  | .bold => BoldType
  | .underline => UnderlineType
  | .titlepage => TitlepageType

def MarkerKind.name : MarkerKind → String
  | .newline => NewlineType
  | .newpage => NewpageType
  | .toc => TOCType

/-- Length of a NodeList. -/
def NodeList.length : NodeList → Nat
  | .nil => 0
  | .cons _ t => 1 + t.length

/-! ## Go dynamic values (the `interface{}` universe seen by the codec) -/

/-- A Go `interface{}` value as the codec of util.go sees it: strings,
the three numeric flavours `optInt` distinguishes (`int`, `int64`,
`float64`), `[]string`, `nil`, `[]interface{}` and `map[string]interface{}`.
All numbers that occur in this codec are integers, so the `float64` flavour
carries the exact integer it holds. -/
inductive GoVal where
  | vstr (s : String)
  | vint (n : Int)
  | vint64 (n : Int)
  | vfloat (n : Int)
  | vstrList (xs : List String)
  | vnull
  | vlist (xs : List GoVal)
  | vmap (fields : List (String × GoVal))

/-- A Go `map[string]interface{}` as an association list (keys produced by
`toJson` are unique; lookup is by key, so order is irrelevant). -/
abbrev GoMap := List (String × GoVal)

/-- Go map indexing `m[key]`: `none` models the `nil` result for an absent key. -/
def mapGet : GoMap → String → Option GoVal
  | [], _ => none
  | (k, v) :: rest, key => if k = key then some v else mapGet rest key

/-- optString (util.go): comma-ok string assertion, empty string on failure. -/
def optString (m : GoMap) (key : String) : String :=
  match mapGet m key with
  | some (.vstr s) => s
  | _ => ""

/-- optInt (util.go): tolerates `int`, `int64` and `float64`, otherwise 0. -/
def optInt (m : GoMap) (key : String) : Int :=
  match mapGet m key with
  | some (.vint n) => n
  | some (.vint64 n) => n
  | some (.vfloat n) => n
  | _ => 0

/-- optStringSlice (util.go): comma-ok `[]string` assertion, nil on failure.
Note the assertion only succeeds on a genuine Go `[]string`; a JSON-decoded
array is a `[]interface{}` and fails it. -/
def optStringSlice (m : GoMap) (key : String) : List String :=
  match mapGet m key with
  | some (.vstrList xs) => xs
  | _ => []

/-- A hard Go type assertion `v.(string)`: `none` models the panic. -/
def assertString : Option GoVal → Option String
  | some (.vstr s) => some s
  | _ => none

/-- Helper of assertObjList: keeps exactly the `map[string]interface{}`
elements of a `[]interface{}`, skipping everything else. -/
def mapsOf : List GoVal → List GoMap
  | [] => []
  | .vmap m :: rest => m :: mapsOf rest
  | _ :: rest => mapsOf rest

/-- assertObjList (util.go): the element maps of a `[]interface{}`, or nil
when the value is not a slice at all. -/
def assertObjList : Option GoVal → List GoMap
  | some (.vlist l) => mapsOf l
  | _ => []

/-! ## Encoding: toJson (model.go / util.go) -/

/-- Author.toJson (model.go). -/
def Author.toJsonMap (a : Author) : GoMap :=
  [(typeAttrName, .vstr AuthorType), ("firstname", .vstr a.firstname),
   ("lastname", .vstr a.lastname), ("email", .vstr a.email)]

mutual

/-- toJson of each Discriminator implementation (model.go): the attribute
map it emits, including the reserved `type` key. `Document.toJson` passes
its id through `optSet`, which omits the key for the empty string. -/
def Node.toJsonMap : Node → GoMap
  | .workspace format version title resources =>
      [(typeAttrName, .vstr WorkspaceType), ("title", .vstr title),
       ("version", .vstr version), ("format", .vint format),
       ("resources", .vlist resources.toJsonVals)]
  | .document id title authors body =>
      (typeAttrName, GoVal.vstr DocumentType)
        :: (if id = "" then [] else [("id", GoVal.vstr id)])
        ++ [("title", GoVal.vstr title),
            ("authors", GoVal.vlist (authors.map fun a => GoVal.vmap a.toJsonMap)),
            ("body", GoVal.vlist body.toJsonVals)]
  | .author a => a.toJsonMap
  | .chapter title level body =>
      [(typeAttrName, .vstr ChapterType), ("title", .vstr title),
       ("level", .vint level), ("body", .vlist body.toJsonVals)]
  | .span value => [(typeAttrName, .vstr TextType), ("value", .vstr value)]
  | .code hint lines =>
      [(typeAttrName, .vstr CodeType), ("hint", .vstr hint),
       ("lines", .vstrList lines)]
  | .image src width height =>
      [(typeAttrName, .vstr ImageType), ("src", .vstr src),
       ("width", .vstr width), ("height", .vstr height)]
  | .group kind body =>
      [(typeAttrName, .vstr kind.name), ("body", .vlist body.toJsonVals)]
  | .marker kind => [(typeAttrName, .vstr kind.name)]

/-- toJson over a slice of Discriminators (util.go `toJson`): the list of
emitted maps, each wrapped as a generic value. -/
def NodeList.toJsonVals : NodeList → List GoVal
  | .nil => []
  | .cons n ns => .vmap n.toJsonMap :: ns.toJsonVals

end

/-! ## Size facts used for the termination of the decoder -/

def mapGet_sizeOf {m : GoMap} {key : String} {v : GoVal}
    (h : mapGet m key = some v) : sizeOf v < sizeOf m := by
  induction m with
  | nil => simp [mapGet] at h
  | cons p rest ih =>
    obtain ⟨k, w⟩ := p
    by_cases hk : k = key
    · simp [mapGet, hk] at h
      subst h
      simp only [List.cons.sizeOf_spec, Prod.mk.sizeOf_spec]
      omega
    · simp only [mapGet, if_neg hk] at h
      have := ih h
      simp only [List.cons.sizeOf_spec]
      omega

def mapsOf_sizeOf_le (l : List GoVal) : sizeOf (mapsOf l) ≤ sizeOf l := by
  induction l with
  | nil => simp [mapsOf]
  | cons v rest ih =>
    cases v <;> simp only [mapsOf, List.cons.sizeOf_spec, GoVal.vmap.sizeOf_spec] <;> omega

def list_sizeOf_pos {α : Type} [SizeOf α] (l : List α) : 0 < sizeOf l := by
  cases l <;> simp

def assertObjList_sizeOf {m : GoMap} (key : String) :
    sizeOf (assertObjList (mapGet m key)) < sizeOf m + 1 := by
  have hm := list_sizeOf_pos m
  match hv : mapGet m key with
  | none =>
    simp only [assertObjList, List.nil.sizeOf_spec]
    omega
  | some v =>
    have hvm := mapGet_sizeOf hv
    cases v
    case vlist l =>
      have h1 := mapsOf_sizeOf_le l
      have h2 : sizeOf (GoVal.vlist l) = 1 + sizeOf l := by simp
      simp only [assertObjList]
      omega
    all_goals simp only [assertObjList, List.nil.sizeOf_spec]
    all_goals omega

/-! ## Decoding: fromJson (util.go / model.go) -/

mutual

/-- fromJson (util.go): dispatch on the discriminator string read through
`optString`, then each variant's `fromJson` method populates the node from
the map. The Go `default` branch panics on an unknown discriminator and the
per-variant decoders panic on failed hard type assertions; either panic is
modelled as `none`. -/
def fromJson (m : GoMap) : Option Node :=
  match optString m typeAttrName with
  | "workspace" => do
      let title ← assertString (mapGet m "title")
      let version ← assertString (mapGet m "version")
      let resources ← fromJsonList (assertObjList (mapGet m "resources"))
      pure (.workspace (optInt m "format") version title resources)
  | "document" => do
      let authors ← authorsFromJson (assertObjList (mapGet m "authors"))
      let body ← fromJsonList (assertObjList (mapGet m "body"))
      pure (.document (optString m "id") (optString m "title") authors body)
  | "author" => do
      let firstname ← assertString (mapGet m "firstname")
      let lastname ← assertString (mapGet m "lastname")
      let email ← assertString (mapGet m "email")
      pure (.author ⟨firstname, lastname, email⟩)
  | "chapter" => do
      let body ← fromJsonList (assertObjList (mapGet m "body"))
      pure (.chapter (optString m "title") (optInt m "level") body)
  | "text" => pure (.span (optString m "value"))
  | "toc" => pure (.marker .toc)
  | "newline" => pure (.marker .newline)
  | "italic" => do
      let body ← fromJsonList (assertObjList (mapGet m "body"))
      pure (.group .italic body)
  | "bold" => do
      let body ← fromJsonList (assertObjList (mapGet m "body"))
      pure (.group .bold body)
  | "underline" => do
      let body ← fromJsonList (assertObjList (mapGet m "body"))
      pure (.group .underline body)
  | "code" => pure (.code (optString m "hint") (optStringSlice m "lines"))
  | "image" =>
      pure (.image (optString m "src") (optString m "width") (optString m "height"))
  | "titlepage" => do
      let body ← fromJsonList (assertObjList (mapGet m "body"))
      pure (.group .titlepage body)
  | "newpage" => pure (.marker .newpage)
  | _ => none
termination_by sizeOf m + 1
decreasing_by
  all_goals simp_wf
  all_goals exact assertObjList_sizeOf _

/-- Decoding a `body`/`resources` slice: `fromJson` per element map, in order. -/
def fromJsonList (ms : List GoMap) : Option NodeList :=
  match ms with
  | [] => pure .nil
  | m :: rest => do
      let n ← fromJson m
      let ns ← fromJsonList rest
      pure (.cons n ns)
termination_by sizeOf ms
decreasing_by
  all_goals simp_wf
  all_goals have h := list_sizeOf_pos rest
  all_goals omega

/-- Document.fromJson's author loop: each element is decoded generically and
then hard-asserted to be an Author (`fromJson(obj).(*Author)`); a non-author
element panics, modelled as `none`. -/
def authorsFromJson (ms : List GoMap) : Option (List Author) :=
  match ms with
  | [] => pure []
  | m :: rest => do
      let n ← fromJson m
      match n with
      | .author a => do
          let as ← authorsFromJson rest
          pure (a :: as)
      | _ => none
termination_by sizeOf ms
decreasing_by
  all_goals simp_wf
  all_goals have h := list_sizeOf_pos rest
  all_goals omega

end

/-- Workspace.fromJson as invoked by Unmarshal (transformer.go): Unmarshal
populates a Workspace directly, without inspecting the discriminator. -/
def workspaceFromJson (m : GoMap) : Option Node := do
  let title ← assertString (mapGet m "title")
  let version ← assertString (mapGet m "version")
  let resources ← fromJsonList (assertObjList (mapGet m "resources"))
  pure (.workspace (optInt m "format") version title resources)

/-! ## The effect of a real JSON byte round trip (encoding/json) -/

mutual

/-- What `json.Unmarshal` hands back after `json.Marshal` serialized a value
produced by `toJson`: strings survive, every Go number (`int`, `int64`,
`float64`) comes back as a `float64` holding the same integer, and every
slice — including a `[]string` — comes back as a generic `[]interface{}`. -/
def jsonRT : GoVal → GoVal
  | .vstr s => .vstr s
  | .vint n => .vfloat n
  | .vint64 n => .vfloat n
  | .vfloat n => .vfloat n
  | .vstrList xs => .vlist (xs.map GoVal.vstr)
  | .vnull => .vnull
  | .vlist xs => .vlist (jsonRTList xs)
  | .vmap fs => .vmap (jsonRTMap fs)

/-- jsonRT over the elements of a `[]interface{}`. -/
def jsonRTList : List GoVal → List GoVal
  | [] => []
  | v :: rest => jsonRT v :: jsonRTList rest

/-- jsonRT over the values of a `map[string]interface{}`. -/
def jsonRTMap : GoMap → GoMap
  | [] => []
  | (k, v) :: rest => (k, jsonRT v) :: jsonRTMap rest

end

/-- Marshal followed by Unmarshal (transformer.go): Marshal serializes
`w.toJson()` with encoding/json; Unmarshal parses the bytes back into a
generic map and populates a fresh Workspace via `Workspace.fromJson`. The
composite effect of the byte round trip on the emitted map is `jsonRTMap`. -/
def marshalUnmarshal (w : Node) : Option Node :=
  workspaceFromJson (jsonRTMap w.toJsonMap)

/-! ## Workspace.ById (model.go) -/

/-- Workspace.ById: scan the top-level Resources in order, return the first
resource that is a Document whose Id equals the argument, nil otherwise.
Non-document resources are skipped; nothing recurses into bodies. -/
def ById : NodeList → String → Option Node
  | .nil, _ => none
  | .cons r rest, id =>
      match r with
      | .document did title authors body =>
          if did = id then some (.document did title authors body)
          else ById rest id
      | _ => ById rest id

/-! ## Builder operations and chapter levels (model.go) -/

/-- Append one element to a Go slice (`append(body, e)`). -/
def NodeList.push : NodeList → Node → NodeList
  | .nil, e => .cons e .nil
  | .cons h t, e => .cons h (t.push e)

/-- NodeList membership. -/
def NodeList.mem : NodeList → Node → Prop
  | .nil, _ => False
  | .cons h t, n => h = n ∨ t.mem n

/-- Document.NewChapter (model.go): creates `&Chapter{Title: s, Level: 0}`
and appends it to the document body; the value here is the updated document. -/
def documentNewChapter (id title : String) (authors : List Author)
    (body : NodeList) (s : String) : Node :=
  .document id title authors (body.push (.chapter s 0 .nil))

/-- Chapter.NewChapter (model.go): creates `&Chapter{Title: title,
Level: c.Level + 1}` and appends it to the chapter body; the value here is
the updated chapter. -/
def chapterNewChapter (title : String) (level : Int) (body : NodeList)
    (t : String) : Node :=
  .chapter title level (body.push (.chapter t (level + 1) .nil))

mutual

/-- Chapter levels agree with chapter-nesting depth: a chapter met under
`d` chapter ancestors must carry Level `d`, and its body is checked under
`d + 1`. Group wrappers, documents and workspaces pass the depth through
unchanged (they are not chapters). Decode performs no such validation. -/
def Node.levelsOk : Int → Node → Bool
  | d, .chapter _ level body => (level == d) && NodeList.levelsOk (d + 1) body
  | d, .group _ body => NodeList.levelsOk d body
  | d, .document _ _ _ body => NodeList.levelsOk d body
  | d, .workspace _ _ _ resources => NodeList.levelsOk d resources
  | _, .author _ => true
  | _, .span _ => true
  | _, .code _ _ => true
  | _, .image _ _ _ => true
  | _, .marker _ => true

/-- Node.levelsOk over every element of a body. -/
def NodeList.levelsOk : Int → NodeList → Bool
  | _, .nil => true
  | d, .cons n ns => Node.levelsOk d n && NodeList.levelsOk d ns

end

mutual

/-- The final values a `*Chapter` can hold after any sequence of builder
calls (model.go): a chapter is born empty with Level 0 by
`Document.NewChapter`, or born empty with Level `l + 1` by
`Chapter.NewChapter` on any reachable chapter of Level `l` (the parent
pointer stays aliased, so the child may afterwards be appended anywhere),
and it grows one appended element per `Add`/`Text`/`NewChapter` call. -/
inductive BuiltChapter : String → Int → NodeList → Prop where
  | newTop (t : String) : BuiltChapter t 0 .nil
  | newSub (t pt : String) (pl : Int) (pb : NodeList) :
      BuiltChapter pt pl pb → BuiltChapter t (pl + 1) .nil
  | add (t : String) (l : Int) (b : NodeList) (e : Node) :
      BuiltChapter t l b → BuiltNode e → BuiltChapter t l (b.push e)

/-- The node values producible by the public construction API of model.go:
`Text`/`Span`, `Code`, `Image`, `Author` literals, the markers, the group
wrappers over built bodies, chapters as above, and documents whose body
grew by `NewChapter`/`Add` (`Add` accepts any built node, including an
already-built chapter of any level). -/
inductive BuiltNode : Node → Prop where
  | span (s : String) : BuiltNode (.span s)
  | code (hint : String) (lines : List String) : BuiltNode (.code hint lines)
  | image (src width height : String) : BuiltNode (.image src width height)
  | author (a : Author) : BuiltNode (.author a)
  | marker (k : MarkerKind) : BuiltNode (.marker k)
  | group (k : GroupKind) (b : NodeList) :
      BuiltList b → BuiltNode (.group k b)
  | chapter (t : String) (l : Int) (b : NodeList) :
      BuiltChapter t l b → BuiltNode (.chapter t l b)
  | document (id title : String) (authors : List Author) (b : NodeList) :
      BuiltList b → BuiltNode (.document id title authors b)

/-- Every element of the list is a built node. -/
inductive BuiltList : NodeList → Prop where
  | nil : BuiltList .nil
  | cons (n : Node) (ns : NodeList) :
      BuiltNode n → BuiltList ns → BuiltList (.cons n ns)

end

/-! ## File transform dispatch (transformer.go) -/

def htmlTemplate : String := ".gohtml"

def textTemplate : String := ".tmpl"

/-- strings.ToLower on the ASCII fragment (the two template extensions the
switch compares against are pure ASCII). -/
def asciiLower (c : Char) : Char :=
  if 'A' ≤ c ∧ c ≤ 'Z' then Char.ofNat (c.toNat + 32) else c

/-- strings.ToLower over a string, ASCII fragment. -/
def strToLower (s : String) : String := .mk (s.data.map asciiLower)

/-- filepath.Base: the last element of the path after dropping trailing
slashes; "." for the empty path, "/" when only separators remain. -/
def goBase (p : String) : String :=
  if p = "" then "."
  else
    let kept := p.data.reverse.dropWhile (· = '/')
    if kept = [] then "/"
    else .mk (kept.takeWhile (· ≠ '/')).reverse

/-- filepath.Ext: the suffix of the final path element starting at its last
dot, empty when the final element has no dot. -/
def goExt (p : String) : String :=
  let pre := p.data.reverse.takeWhile (· ≠ '/')
  if pre.contains '.' then .mk (pre.takeWhile (· ≠ '.') ++ ['.']).reverse else ""

/-- Which of the three transform strategies NewFile picks. -/
inductive TransformKind where
  | htmlTransform
  | textTransform
  | copyTransform
deriving DecidableEq, Repr

/-- NewFile (transformer.go): the destination filename and the transform
chosen from the (lowercased) extension of the file's basename. The switch
compares `strings.ToLower(ext)` against the two template suffixes; every
other file keeps its full basename and is byte-copied. (Template parsing,
which can additionally fail, happens after this choice and is not part of
the dispatch.) -/
def NewFile (fname : String) : String × TransformKind :=
  let basePath := goBase fname
  let ext := goExt basePath
  match strToLower ext with
  | ".gohtml" =>
      (.mk (basePath.data.take (basePath.length - htmlTemplate.length)), .htmlTransform)
  | ".tmpl" =>
      (.mk (basePath.data.take (basePath.length - textTemplate.length)), .textTransform)
  | _ => (basePath, .copyTransform)

/-- CopyTransformer.Transform (transformer.go): an `io.Copy` of the opened
source file into the output sink, so the bytes written are exactly the
source file's bytes. -/
def copyTransformerRun (srcBytes : List Nat) : List Nat := srcBytes

/-! ## SHA-224 (crypto/sha256.Sum224, used by build.go for cache addressing)

Implemented from FIPS 180-4 over `Nat` with explicit reduction mod 2^32. -/

/-- Right rotation of a 32-bit word. -/
def rotr32 (x n : Nat) : Nat := ((x >>> n) ||| (x <<< (32 - n))) % 4294967296

def smallSigma0 (x : Nat) : Nat := rotr32 x 7 ^^^ rotr32 x 18 ^^^ (x >>> 3)

def smallSigma1 (x : Nat) : Nat := rotr32 x 17 ^^^ rotr32 x 19 ^^^ (x >>> 10)

def bigSigma0 (x : Nat) : Nat := rotr32 x 2 ^^^ rotr32 x 13 ^^^ rotr32 x 22

def bigSigma1 (x : Nat) : Nat := rotr32 x 6 ^^^ rotr32 x 11 ^^^ rotr32 x 25

/-- Ch(x, y, z); not-x is xor against the all-ones 32-bit word. -/
def chFun (x y z : Nat) : Nat := (x &&& y) ^^^ ((x ^^^ 4294967295) &&& z)

def majFun (x y z : Nat) : Nat := (x &&& y) ^^^ (x &&& z) ^^^ (y &&& z)

/-- The 64 SHA-256 round constants, packed big-endian into one integer
(the word for round 0 occupies the most significant 32 bits). -/
def sha256Kpacked : Nat :=
  8399870144517823301722239222130927227141849779511242471197906795369846673996008864786532278482947930035050432913372875699354429524650716672308175015812472005008943341011247634627600705591103756174659437448007297240981034636327441933849465611186184660803773840414514428031635770391245199770927811112653141372483794982516161135727373084047811483050876080270389320947077305721183235613169389468744126235534648516788175255292025668825020963291224099932572215580391753777671218957634024159536228058522778003881673030597872562207069818177476920296259993961459554031943090626293016819766823808480230688357231269177224952050

/-- The SHA-256 round constant of round `t`. -/
def sha256K (t : Nat) : Nat := sha256Kpacked >>> (32 * (63 - t)) % 4294967296

/-- The SHA-224 initial hash value, packed big-endian into one integer. -/
def sha224H0packed : Nat :=
  87306310316903794605626041290453840373756597693825879167785823227765501611940

/-- The SHA-224 initial hash value as eight words. -/
def sha224H0 : List Nat :=
  (List.range 8).map fun i => sha224H0packed >>> (32 * (7 - i)) % 4294967296

/-- UTF-8 bytes of one character (Go `[]byte(string)` encodes UTF-8). -/
def utf8Bytes (c : Char) : List Nat :=
  let n := c.toNat
  if n < 128 then [n]
  else if n < 2048 then [192 + n / 64, 128 + n % 64]
  else if n < 65536 then [224 + n / 4096, 128 + n / 64 % 64, 128 + n % 64]
  else [240 + n / 262144, 128 + n / 4096 % 64, 128 + n / 64 % 64, 128 + n % 64]

/-- UTF-8 bytes of a string. -/
def strBytes (s : String) : List Nat :=
  s.data.foldr (fun c acc => utf8Bytes c ++ acc) []

/-- FIPS 180-4 padding: append 0x80, zero bytes up to 56 mod 64, then the
bit length as 8 big-endian bytes. -/
def shaPad (msg : List Nat) : List Nat :=
  let L := msg.length
  let zeros := List.replicate ((119 - L % 64) % 64) 0
  let bitLen := 8 * L
  msg ++ [128] ++ zeros ++ (List.range 8).map (fun i => bitLen >>> (8 * (7 - i)) % 256)

/-- Big-endian 32-bit words from bytes. -/
def toWords : List Nat → List Nat
  | b0 :: b1 :: b2 :: b3 :: rest =>
      (((b0 * 256 + b1) * 256 + b2) * 256 + b3) :: toWords rest
  | _ => []

/-- Split a word list into 16-word blocks (padded input is always a
multiple of 16 words; a shorter remainder becomes a final short block). -/
def chunk16 : List Nat → List (List Nat)
  | a0 :: a1 :: a2 :: a3 :: a4 :: a5 :: a6 :: a7 ::
    a8 :: a9 :: a10 :: a11 :: a12 :: a13 :: a14 :: a15 :: rest =>
      [a0, a1, a2, a3, a4, a5, a6, a7, a8, a9, a10, a11, a12, a13, a14, a15]
        :: chunk16 rest
  | [] => []
  | rest => [rest]

/-- Message schedule: extend 16 words to 64. -/
def schedule (ws : List Nat) : List Nat :=
  (List.range 48).foldl
    (fun acc i =>
      acc ++ [(smallSigma1 (acc.getD (14 + i) 0) + acc.getD (9 + i) 0 +
               smallSigma0 (acc.getD (1 + i) 0) + acc.getD i 0) % 4294967296])
    ws

/-- One SHA-256 block compression. -/
def compress (h : List Nat) (w : List Nat) : List Nat :=
  let step := fun (st : List Nat) (t : Nat) =>
    match st with
    | [a, b, c, d, e, f, g, hh] =>
        let t1 := (hh + bigSigma1 e + chFun e f g + sha256K t +
                   w.getD t 0) % 4294967296
        let t2 := (bigSigma0 a + majFun a b c) % 4294967296
        [(t1 + t2) % 4294967296, a, b, c, (d + t1) % 4294967296, e, f, g]
    | st => st
  match h, (List.range 64).foldl step h with
  | [h0, h1, h2, h3, h4, h5, h6, h7], [a, b, c, d, e, f, g, hh] =>
      [(h0 + a) % 4294967296, (h1 + b) % 4294967296, (h2 + c) % 4294967296,
       (h3 + d) % 4294967296, (h4 + e) % 4294967296, (h5 + f) % 4294967296,
       (h6 + g) % 4294967296, (h7 + hh) % 4294967296]
  | _, _ => h

/-- SHA-224 digest of a byte sequence, as seven 32-bit words
(`sha256.Sum224` truncates the eighth word). -/
def sha224Words (msg : List Nat) : List Nat :=
  ((chunk16 (toWords (shaPad msg))).foldl
    (fun h blk => compress h (schedule blk)) sha224H0).take 7

/-- Lowercase hex digit. -/
def hexDigit (n : Nat) : Char :=
  if n < 10 then Char.ofNat (48 + n) else Char.ofNat (87 + n)

/-- Eight lowercase hex characters of a 32-bit word. -/
def wordHex (w : Nat) : List Char :=
  (List.range 8).map fun i => hexDigit (w >>> (4 * (7 - i)) % 16)

/-- hex.EncodeToString of sha256.Sum224 of the UTF-8 bytes of a string:
the 56-character lowercase content address used by build.go. -/
def sha224hex (s : String) : String :=
  .mk ((sha224Words (strBytes s)).foldr (fun w acc => wordHex w ++ acc) [])

/-! ## Build orchestrator (build.go) -/

/-- BuildRule (build.go): subtree identifier, template reference, output
subfolder name. -/
structure BuildRule where
  Id : String
  Template : String
  Name : String
deriving DecidableEq, Repr

/-- Build (build.go): the workspace's top-level resources, the output
directory, the ordered rules, and the scratch directory. -/
structure Build where
  resources : NodeList
  dir : String
  rules : List BuildRule
  tmpDir : String

/-- The opaque template project handle `ReadTemplate` yields; its parsed
contents do not influence the orchestration-level claims. -/
structure TemplateProj where
  dir : String
  buildDir : String
deriving DecidableEq, Repr

/-- Outcomes of the filesystem- and process-dependent steps `Apply` takes,
one oracle per call site of build.go: template provisioning (stat, git
clone/pull), `ReadTemplate`, `Template.Build` (which returns nil files on
every error path), `os.MkdirAll`, `IsDir` and the two copy helpers. -/
structure BuildEnv where
  provide : String → Except String String
  readTemplate : String → String → Except String TemplateProj
  tplBuild : TemplateProj → Node → Except String (List String)
  mkdirAll : String → Except String Unit
  isDir : String → Bool
  copyDir : String → String → Except String Unit
  copyFile : String → String → Except String Unit

/-- A write performed under the Build's output directory. -/
inductive FsWrite where
  | mkdir (path : String)
  | copyDir (src dst : String)
  | copyFile (src dst : String)
deriving DecidableEq, Repr

/-- The transform staging directory of a rule (build.go, Apply):
`filepath.Join(b.tmpDir, "transform", hex(sha224(r.Id + r.Template)))`. -/
def transformTmpDir (b : Build) (r : BuildRule) : String :=
  b.tmpDir ++ "/transform/" ++ sha224hex (r.Id ++ r.Template)

/-- The template provisioning cache directory for a URL reference
(build.go, provideTemplate): `filepath.Join(b.tmpDir, "template",
hex(sha224(url)))`. -/
def templateCacheDir (b : Build) (url : String) : String :=
  b.tmpDir ++ "/template/" ++ sha224hex url

/-- The artifact copy loop at the end of each rule (build.go, Apply):
each returned file lands under the rule's target dir under its base name;
directories are copied recursively, files individually; the first failure
aborts with a wrapped error. Returns the outcome and the writes performed. -/
def copyArtifacts (env : BuildEnv) (targetDir : String) :
    List String → Except String Unit × List FsWrite
  | [] => (.ok (), [])
  | f :: rest =>
      let dst := targetDir ++ "/" ++ goBase f
      if env.isDir f then
        match env.copyDir f dst with
        | .error e => (.error ("failed to copy result folder: " ++ e), [])
        | .ok _ =>
            let (res, ws) := copyArtifacts env targetDir rest
            (res, .copyDir f dst :: ws)
      else
        match env.copyFile f dst with
        | .error e => (.error ("failed to copy result file: " ++ e), [])
        | .ok _ =>
            let (res, ws) := copyArtifacts env targetDir rest
            (res, .copyFile f dst :: ws)

/-- The body of Build.Apply's loop for one rule (build.go), faithfully
including the error-handling slip: the error of
`files, err := tpl.Build(objRoot)` is overwritten by
`err = os.MkdirAll(targetDir, ...)` before it is ever checked, and a failed
`Template.Build` returns nil files, so a rendering failure leaves `files`
empty and processing continues. Returns the step outcome together with the
writes performed under the Build's output directory. -/
def applyOneRule (env : BuildEnv) (b : Build) (r : BuildRule) :
    Except String Unit × List FsWrite :=
  match env.provide r.Template with
  | .error e => (.error ("unable to provide template: " ++ e), [])
  | .ok template =>
      match ById b.resources r.Id with
      | none => (.error ("workspace does not contain " ++ r.Id), [])
      | some objRoot =>
          match env.readTemplate template (transformTmpDir b r) with
          | .error e =>
              (.error ("failed to read template " ++ template ++ ": " ++ e), [])
          | .ok tpl =>
              let files :=
                match env.tplBuild tpl objRoot with
                | .ok fs => fs
                | .error _ => []
              let targetDir := b.dir ++ "/" ++ r.Name
              match env.mkdirAll targetDir with
              | .error e => (.error ("mkdir " ++ targetDir ++ " failed: " ++ e), [])
              | .ok _ =>
                  let (res, ws) := copyArtifacts env targetDir files
                  (res, FsWrite.mkdir targetDir :: ws)

/-- Build.Apply's loop (build.go) from rule index `i`: rules run strictly
in order, the first per-rule error aborts the remaining rules. Writes are
tagged with the index of the rule that performed them. -/
def applyRules (env : BuildEnv) (b : Build) :
    Nat → List BuildRule → Except String Unit × List (Nat × FsWrite)
  | _, [] => (.ok (), [])
  | i, r :: rest =>
      match applyOneRule env b r with
      | (.error e, ws) => (.error e, ws.map fun w => (i, w))
      | (.ok _, ws) =>
          let (res2, ws2) := applyRules env b (i + 1) rest
          (res2, (ws.map fun w => (i, w)) ++ ws2)

/-- Build.Apply (build.go). -/
def Build.apply (env : BuildEnv) (b : Build) :
    Except String Unit × List (Nat × FsWrite) :=
  applyRules env b 0 b.rules

/-! ## Concrete values used by the example-level theorems -/

/-- A chapter attribute map with the level stored as the given value. -/
def chapterLevelMap (v : GoVal) : GoMap :=
  [(typeAttrName, .vstr ChapterType), ("title", .vstr "c"), ("level", v),
   ("body", .vlist [])]

/-- A workspace holding one Code node with one line. -/
def wsWithCode : Node := .workspace 1 "1.0" "w" (.cons (.code "go" ["line1"]) .nil)

/-- The same workspace with the code lines lost. -/
def wsCodeLost : Node := .workspace 1 "1.0" "w" (.cons (.code "go" []) .nil)

/-- A workspace without Code nodes: one document with an author and a
chapter holding a text span. -/
def wsPlain : Node :=
  .workspace 1 "1.0" "W"
    (.cons
      (.document "D1" "t" [⟨"f", "l", "e"⟩]
        (.cons (.chapter "Intro" 0 (.cons (.span "hello") .nil)) .nil))
      .nil)

/-- Example document with id A. -/
def docA : Node := .document "A" "ta" [] .nil

/-- A second document with id A, appearing later. -/
def docA2 : Node := .document "A" "second" [] .nil

/-- A document with id B whose chapter body nests a document with id C. -/
def docB : Node :=
  .document "B" "tb" []
    (.cons (.chapter "ch" 0 (.cons (.document "C" "nested" [] .nil) .nil)) .nil)

/-- Example top-level resources: a non-document, two documents with id A
(the first must win) and the document B with the nested C. -/
def exRes : NodeList :=
  .cons (.span "x") (.cons docA (.cons docA2 (.cons docB .nil)))

/-- A document produced by builder calls alone whose body holds a chapter of
Level 1 at nesting depth 0: `c := doc.NewChapter("a")` gives Level 0,
`sub := c.NewChapter("b")` gives Level 1, then `doc2.Add(sub)` re-attaches
the aliased chapter at top level. -/
def builtBadDoc : Node := .document "d" "" [] (.cons (.chapter "b" 1 .nil) .nil)

/-- A build with a fixed scratch directory, for the concrete collision. -/
def bScratch : Build := ⟨.nil, "out", [], "tmp"⟩

/-- An environment in which every step succeeds except Template.Build,
which reports a rendering failure. -/
def renderFailEnv : BuildEnv where
  provide := fun t => .ok t
  readTemplate := fun d bd => .ok ⟨d, bd⟩
  tplBuild := fun _ _ => .error "failed to build"
  mkdirAll := fun _ => .ok ()
  isDir := fun _ => false
  copyDir := fun _ _ => .ok ()
  copyFile := fun _ _ => .ok ()

/-- A build with one rule whose document exists. -/
def renderFailBuild : Build :=
  ⟨.cons (.document "D1" "" [] .nil) .nil, "out", [⟨"D1", "tpl", "book"⟩], "tmp"⟩

/-- An environment in which every step succeeds. -/
def allOkEnv : BuildEnv where
  provide := fun t => .ok t
  readTemplate := fun d bd => .ok ⟨d, bd⟩
  tplBuild := fun _ _ => .ok []
  mkdirAll := fun _ => .ok ()
  isDir := fun _ => false
  copyDir := fun _ _ => .ok ()
  copyFile := fun _ _ => .ok ()

/-- A build whose single rule references an id missing from the workspace. -/
def missingIdBuild : Build := ⟨.nil, "out", [⟨"X", "tpl", "n"⟩], "tmp"⟩

/-! ## Round trip of the in-memory codec (fromJson of toJson) -/

theorem fromJson_author (a : Author) : fromJson a.toJsonMap = some (.author a) := by
  simp [Author.toJsonMap, fromJson, optString, mapGet, assertString, typeAttrName, AuthorType]

theorem mapsOf_authorMaps (as : List Author) :
    mapsOf (as.map fun a => GoVal.vmap a.toJsonMap) = as.map Author.toJsonMap := by
  induction as with
  | nil => simp [mapsOf]
  | cons a rest ih => simp [mapsOf, ih]

theorem authorsFromJson_toJson (as : List Author) :
    authorsFromJson (as.map Author.toJsonMap) = some as := by
  induction as with
  | nil => simp [authorsFromJson]
  | cons a rest ih => simp [authorsFromJson, fromJson_author a, ih]

mutual

theorem fromJson_toJson (n : Node) : fromJson n.toJsonMap = some n := by
  cases n with
  | workspace format version title resources =>
      have ih := fromJsonList_mapsOf resources
      simp [Node.toJsonMap, fromJson, optString, optInt, mapGet, assertString,
            assertObjList, typeAttrName, WorkspaceType, ih]
  | document id title authors body =>
      have ih := fromJsonList_mapsOf body
      by_cases hid : id = "" <;>
        simp [Node.toJsonMap, fromJson, optString, optInt, mapGet, assertString,
              assertObjList, typeAttrName, DocumentType, hid, ih,
              mapsOf_authorMaps, authorsFromJson_toJson]
  | author a => exact fromJson_author a
  | chapter title level body =>
      have ih := fromJsonList_mapsOf body
      simp [Node.toJsonMap, fromJson, optString, optInt, mapGet, assertString,
            assertObjList, typeAttrName, ChapterType, ih]
  | span value =>
      simp [Node.toJsonMap, fromJson, optString, mapGet, typeAttrName, TextType]
  | code hint lines =>
      simp [Node.toJsonMap, fromJson, optString, optStringSlice, mapGet,
            typeAttrName, CodeType]
  | image src width height =>
      simp [Node.toJsonMap, fromJson, optString, mapGet, typeAttrName, ImageType]
  | group kind body =>
      have ih := fromJsonList_mapsOf body
      cases kind <;>
        simp [Node.toJsonMap, GroupKind.name, fromJson, optString, mapGet,
              assertObjList, typeAttrName, ItalicType, BoldType, UnderlineType,
              TitlepageType, ih]
  | marker kind =>
      cases kind <;>
        simp [Node.toJsonMap, MarkerKind.name, fromJson, optString, mapGet,
              typeAttrName, NewlineType, NewpageType, TOCType]

theorem fromJsonList_mapsOf (ns : NodeList) :
    fromJsonList (mapsOf ns.toJsonVals) = some ns := by
  cases ns with
  | nil => simp [NodeList.toJsonVals, mapsOf, fromJsonList]
  | cons h t =>
      have ih1 := fromJson_toJson h
      have ih2 := fromJsonList_mapsOf t
      simp [NodeList.toJsonVals, mapsOf, fromJsonList, ih1, ih2]

end



/-! ## Helper lemmas -/

theorem assertString_eq_none {m : GoMap} {key : String}
    (h : ∀ s, mapGet m key ≠ some (.vstr s)) :
    assertString (mapGet m key) = none := by
  cases hv : mapGet m key with
  | none => simp [assertString]
  | some v =>
      cases v
      case vstr s => exact absurd hv (h s)
      all_goals simp [assertString]

theorem fromJson_author_eq (m : GoMap)
    (htype : optString m typeAttrName = "author") :
    fromJson m =
      (assertString (mapGet m "firstname")).bind fun f =>
      (assertString (mapGet m "lastname")).bind fun l =>
      (assertString (mapGet m "email")).bind fun e =>
      some (.author ⟨f, l, e⟩) := by
  unfold fromJson
  rw [htype]
  rfl

theorem levelsOk_push (d : Int) : ∀ (b : NodeList) (e : Node),
    NodeList.levelsOk d (b.push e) = (NodeList.levelsOk d b && Node.levelsOk d e)
  | .nil, e => by simp [NodeList.push, NodeList.levelsOk]
  | .cons h t, e => by
      simp [NodeList.push, NodeList.levelsOk, levelsOk_push d t e, Bool.and_assoc]

theorem string_append_cancel {a b c : String} (h : a ++ b = a ++ c) : b = c := by
  have hd := congrArg String.data h
  simp only [String.data_append] at hd
  exact String.ext (List.append_cancel_left hd)

theorem byId_mem_aux : ∀ (rs : NodeList) (id : String) (n : Node),
    ById rs id = some n →
    NodeList.mem rs n ∧ ∃ t as b, n = .document id t as b
  | .nil, id, n, h => by simp [ById] at h
  | .cons r rest, id, n, h => by
      cases r
      case document did t as b =>
        by_cases hd : did = id
        · subst hd
          simp [ById] at h
          subst h
          exact ⟨Or.inl rfl, t, as, b, rfl⟩
        · simp [ById, hd] at h
          have ih := byId_mem_aux rest id n h
          exact ⟨Or.inr ih.1, ih.2⟩
      all_goals
        simp [ById] at h
        have ih := byId_mem_aux rest id n h
        exact ⟨Or.inr ih.1, ih.2⟩

theorem byId_none_aux : ∀ (rs : NodeList) (id : String), ById rs id = none →
    ∀ t as b, ¬ NodeList.mem rs (.document id t as b)
  | .nil, id, h => by simp [NodeList.mem]
  | .cons r rest, id, h => by
      intro t as b hmem
      cases r
      case document did t2 as2 b2 =>
        by_cases hd : did = id
        · subst hd; simp [ById] at h
        · simp [ById, hd] at h
          rcases hmem with heq | hmem
          · exact hd (by injection heq)
          · exact byId_none_aux rest id h t as b hmem
      all_goals
        simp [ById] at h
        rcases hmem with heq | hmem
        · exact Node.noConfusion heq
        · exact byId_none_aux rest id h t as b hmem

theorem applyOneRule_missing_id (env : BuildEnv) (b : Build) (r : BuildRule)
    (hid : ById b.resources r.Id = none) :
    (applyOneRule env b r).2 = [] ∧ ∃ e, (applyOneRule env b r).1 = .error e := by
  unfold applyOneRule
  cases hp : env.provide r.Template with
  | error e => exact ⟨rfl, "unable to provide template: " ++ e, rfl⟩
  | ok tpl => simp [hid]

theorem applyRules_missing_id (env : BuildEnv) (b : Build) (r : BuildRule)
    (hid : ById b.resources r.Id = none) :
    ∀ (pre post : List BuildRule) (i : Nat),
      (∃ e, (applyRules env b i (pre ++ r :: post)).1 = .error e) ∧
      ∀ p ∈ (applyRules env b i (pre ++ r :: post)).2, p.1 ≠ i + pre.length
  | [], post, i => by
      obtain ⟨hw, e, he⟩ := applyOneRule_missing_id env b r hid
      rcases hr : applyOneRule env b r with ⟨res, ws⟩
      rw [hr] at hw he
      simp only at hw he
      subst hw he
      constructor
      · exact ⟨e, by simp [applyRules, hr]⟩
      · intro q hq
        simp [applyRules, hr] at hq
  | p :: pre2, post, i => by
      have ih := applyRules_missing_id env b r hid pre2 post (i + 1)
      rcases hr : applyOneRule env b p with ⟨res, ws⟩
      cases res with
      | error e =>
          constructor
          · exact ⟨e, by simp [applyRules, hr]⟩
          · intro q hq
            simp [applyRules, hr] at hq
            obtain ⟨w, hw, rfl⟩ := hq
            simp [List.length_cons]
      | ok u =>
          obtain ⟨⟨e, he⟩, htags⟩ := ih
          rcases hr2 : applyRules env b (i + 1) (pre2 ++ r :: post) with ⟨res2, ws2⟩
          rw [hr2] at he
          simp only at he
          subst he
          rw [hr2] at htags
          simp only at htags
          constructor
          · exact ⟨e, by simp [applyRules, hr, hr2]⟩
          · intro q hq
            simp [applyRules, hr, hr2] at hq
            rcases hq with ⟨w, hw, rfl⟩ | hq2
            · simp [List.length_cons]
            · have h3 := htags q hq2
              simp [List.length_cons]
              simp at h3
              omega

/-! ## Supporting sanity theorems -/

/-- The SHA-224 embedding matches the FIPS 180-4 test vector for "abc". -/
theorem sha224hex_abc :
    sha224hex "abc" = "23097d223405d8228642a477bda255b32aadbce4bda0b3f7e36c9da7" := by
  decide

/-- A Marshal followed by Unmarshal reproduces a workspace that contains no
Code node, including its format number read back from a float64. -/
theorem marshal_unmarshal_plain : marshalUnmarshal wsPlain = some wsPlain := by
  simp [marshalUnmarshal, wsPlain, Node.toJsonMap, Author.toJsonMap,
    NodeList.toJsonVals, jsonRTMap, jsonRT, jsonRTList, workspaceFromJson,
    fromJsonList, fromJson, authorsFromJson, optString, optInt, mapGet,
    assertString, assertObjList, mapsOf, typeAttrName, WorkspaceType,
    DocumentType, AuthorType, ChapterType, TextType]

/-! ## Claim theorems -/

/-- C1: decoding the encoding of a tree reproduces it. This holds for the
in-memory codec (`fromJson_toJson` above), but the claim also asserts it for
Unmarshal of Marshal of whole Workspaces, and there it fails: a real JSON
round trip hands `lines` back as a `[]interface{}`, the `[]string` assertion
in `optStringSlice` fails, and the Code lines decode as nil. This theorem
evaluates the byte round trip at the failing input. -/
theorem marshal_unmarshal_drops_code_lines :
    marshalUnmarshal wsWithCode = some wsCodeLost ∧ wsWithCode ≠ wsCodeLost := by
  constructor
  · simp [marshalUnmarshal, wsWithCode, wsCodeLost, Node.toJsonMap,
      NodeList.toJsonVals, jsonRTMap, jsonRT, jsonRTList, workspaceFromJson,
      fromJsonList, fromJson, optString, optInt, optStringSlice, mapGet,
      assertString, assertObjList, mapsOf, typeAttrName, WorkspaceType, CodeType]
  · simp [wsWithCode, wsCodeLost]

/-- C2: the claim says a rendering failure reported by Template.Build makes
Apply return a non-nil error. The code overwrites that error with the result
of os.MkdirAll before checking it, so Apply succeeds: with every step fine
except Template.Build failing, Apply returns ok. -/
theorem apply_swallows_render_error :
    renderFailEnv.tplBuild
        ⟨"tpl", transformTmpDir renderFailBuild ⟨"D1", "tpl", "book"⟩⟩
        (.document "D1" "" [] .nil) = .error "failed to build" ∧
    (Build.apply renderFailEnv renderFailBuild).1 = .ok () := by
  exact ⟨rfl, rfl⟩

/-- C3: decoding an attribute map whose discriminator is outside the closed
fourteen-element registry aborts (modelled as none) and never yields a node. -/
theorem fromJson_unknown_discriminator (m : GoMap)
    (h : optString m typeAttrName ∉ registry) : fromJson m = none := by
  unfold fromJson
  split <;>
    simp_all [registry, WorkspaceType, DocumentType, AuthorType, ChapterType,
      TextType, TOCType, NewlineType, ItalicType, BoldType, UnderlineType,
      CodeType, ImageType, TitlepageType, NewpageType]

/-- Witness for C3 at the discriminator "bogus". -/
theorem fromJson_unknown_discriminator_witness :
    fromJson [(typeAttrName, .vstr "bogus")] = none :=
  fromJson_unknown_discriminator _ (by decide)

/-- C4 counterexample: the staging directory hashes the bare concatenation
of rule id and template reference, so the distinct pairs ("ab", "c") and
("a", "bc") concatenate identically and share one staging directory,
refuting the claim that any two differing pairs get distinct paths. -/
theorem transform_staging_collision :
    (BuildRule.mk "ab" "c" "n1" ≠ BuildRule.mk "a" "bc" "n2") ∧
    transformTmpDir bScratch ⟨"ab", "c", "n1"⟩ =
      transformTmpDir bScratch ⟨"a", "bc", "n2"⟩ := by
  constructor
  · decide
  · rfl

/-- C4 amended: two rules of one build get distinct transform staging
directories whenever the SHA-224 content addresses of their concatenated
id and template reference differ, and a transform staging directory never
coincides with a template provisioning cache directory. -/
theorem staging_dirs_distinct (b : Build) (r r2 : BuildRule) (u : String)
    (h : sha224hex (r.Id ++ r.Template) ≠ sha224hex (r2.Id ++ r2.Template)) :
    transformTmpDir b r ≠ transformTmpDir b r2 ∧
    transformTmpDir b r ≠ templateCacheDir b u := by
  constructor
  · intro hEq
    apply h
    unfold transformTmpDir at hEq
    rw [String.append_assoc, String.append_assoc] at hEq
    have h1 := string_append_cancel hEq
    exact string_append_cancel h1
  · intro hEq
    unfold transformTmpDir templateCacheDir at hEq
    rw [String.append_assoc, String.append_assoc] at hEq
    have h1 := string_append_cancel hEq
    have hd := congrArg String.data h1
    simp only [String.data_append] at hd
    have h2 := congrArg (fun l => l[2]?) hd
    simp at h2

/-- Witness for the amended C4 at two rules with different digests. -/
theorem staging_dirs_distinct_witness :
    transformTmpDir bScratch ⟨"x", "t1", "n"⟩ ≠
      transformTmpDir bScratch ⟨"y", "t2", "n"⟩ ∧
    transformTmpDir bScratch ⟨"x", "t1", "n"⟩ ≠ templateCacheDir bScratch "u" :=
  staging_dirs_distinct bScratch ⟨"x", "t1", "n"⟩ ⟨"y", "t2", "n"⟩ "u" (by decide)

/-- C5: the transform and destination name follow the case-insensitively
lowercased extension: index.tmpl stages as index with the text transform,
page.gohtml stages as page with the HTML transform, any other or missing
extension keeps the full basename with the byte-copy transform, whose
output equals its input byte for byte. -/
theorem newFile_extension_dispatch :
    NewFile "index.tmpl" = ("index", .textTransform) ∧
    NewFile "page.gohtml" = ("page", .htmlTransform) ∧
    NewFile "logo.png" = ("logo.png", .copyTransform) ∧
    NewFile "doc.TMPL" = ("doc", .textTransform) ∧
    (∀ fname, strToLower (goExt (goBase fname)) ≠ htmlTemplate →
        strToLower (goExt (goBase fname)) ≠ textTemplate →
        NewFile fname = (goBase fname, .copyTransform)) ∧
    (∀ bs, copyTransformerRun bs = bs) := by
  refine ⟨by decide, by decide, by decide, by decide, ?_, fun bs => rfl⟩
  intro fname h1 h2
  simp only [NewFile]
  split
  case _ heq => exact absurd heq (by simpa [htmlTemplate] using h1)
  case _ heq => exact absurd heq (by simpa [textTemplate] using h2)
  · rfl

/-- Witness for C5 at a path with an unrecognized extension. -/
theorem newFile_extension_dispatch_witness :
    NewFile "dir/logo.PNG" = ("logo.PNG", .copyTransform) :=
  newFile_extension_dispatch.2.2.2.2.1 "dir/logo.PNG" (by decide) (by decide)

/-- C6: ById scans only the top-level resources in order: on the example
resources it returns the first document with id A, the document with id B,
and not-found for the id C that only occurs nested inside a chapter; in
general a hit is a top-level document with the requested id, and a miss
means no top-level document carries it. -/
theorem byId_top_level_first_document :
    ById exRes "A" = some docA ∧
    ById exRes "B" = some docB ∧
    ById exRes "C" = none ∧
    (∀ (rs : NodeList) (id : String) (n : Node), ById rs id = some n →
        NodeList.mem rs n ∧ ∃ t as b, n = .document id t as b) ∧
    (∀ (rs : NodeList) (id : String), ById rs id = none →
        ∀ t as b, ¬ NodeList.mem rs (.document id t as b)) :=
  ⟨by simp [exRes, docA, docA2, docB, ById],
   by simp [exRes, docA, docA2, docB, ById],
   by simp [exRes, docA, docA2, docB, ById],
   byId_mem_aux, byId_none_aux⟩

/-- Witness for C6 at the example resources and id A. -/
theorem byId_top_level_first_document_witness :
    NodeList.mem exRes docA ∧ ∃ t as b, docA = Node.document "A" t as b :=
  byId_top_level_first_document.2.2.2.1 exRes "A" docA
    (by simp [exRes, docA, docA2, docB, ById])

/-- C7: when a rule references an id absent from the workspace, Apply
returns an error and performs no write tagged with that rule, so nothing
lands under its output subfolder: the mkdir and copy steps of that rule are
never reached. -/
theorem apply_missing_id_aborts (env : BuildEnv) (b : Build)
    (pre post : List BuildRule) (r : BuildRule)
    (hrules : b.rules = pre ++ r :: post)
    (hid : ById b.resources r.Id = none) :
    (∃ e, (Build.apply env b).1 = .error e) ∧
    ∀ p ∈ (Build.apply env b).2, p.1 ≠ pre.length := by
  have h := applyRules_missing_id env b r hid pre post 0
  rw [Build.apply, hrules]
  simpa using h

/-- Witness for C7 at a one-rule build whose id is missing. -/
theorem apply_missing_id_aborts_witness :
    (∃ e, (Build.apply allOkEnv missingIdBuild).1 = .error e) ∧
    ∀ p ∈ (Build.apply allOkEnv missingIdBuild).2, p.1 ≠ 0 :=
  apply_missing_id_aborts allOkEnv missingIdBuild [] [] ⟨"X", "tpl", "n"⟩ rfl rfl

/-- C8: optInt accepts a stored int, int64 or float64 and yields the same
integer, and yields zero for a missing or non-numeric value; consequently a
chapter level decodes identically from the three numeric representations
and decodes as zero when missing or non-numeric. -/
theorem optInt_numeric_tolerance :
    (∀ (m : GoMap) (key : String) (n : Int),
        mapGet m key = some (.vint n) ∨ mapGet m key = some (.vint64 n) ∨
          mapGet m key = some (.vfloat n) →
        optInt m key = n) ∧
    (∀ (m : GoMap) (key : String),
        (∀ n : Int, mapGet m key ≠ some (.vint n) ∧
          mapGet m key ≠ some (.vint64 n) ∧ mapGet m key ≠ some (.vfloat n)) →
        optInt m key = 0) ∧
    fromJson (chapterLevelMap (.vint 3)) = some (.chapter "c" 3 .nil) ∧
    fromJson (chapterLevelMap (.vint64 3)) = some (.chapter "c" 3 .nil) ∧
    fromJson (chapterLevelMap (.vfloat 3)) = some (.chapter "c" 3 .nil) ∧
    fromJson (chapterLevelMap (.vstr "x")) = some (.chapter "c" 0 .nil) ∧
    fromJson [(typeAttrName, .vstr ChapterType), ("title", .vstr "c"),
      ("body", .vlist [])] = some (.chapter "c" 0 .nil) := by
  refine ⟨?_, ?_, ?_, ?_, ?_, ?_, ?_⟩
  · rintro m key n (hv | hv | hv) <;> simp [optInt, hv]
  · intro m key h
    unfold optInt
    split
    case _ n heq => exact absurd heq (h n).1
    case _ n heq => exact absurd heq (h n).2.1
    case _ n heq => exact absurd heq (h n).2.2
    · rfl
  all_goals
    simp [chapterLevelMap, fromJson, fromJsonList, optString, optInt, mapGet,
      typeAttrName, ChapterType, assertObjList, mapsOf]

/-- Witness for C8 at concrete one-entry maps. -/
theorem optInt_numeric_tolerance_witness :
    optInt [("level", GoVal.vfloat 7)] "level" = 7 ∧
    optInt [("level", GoVal.vstr "x")] "level" = 0 :=
  ⟨optInt_numeric_tolerance.1 _ "level" 7 (by simp [mapGet]),
   optInt_numeric_tolerance.2.1 _ "level" (by simp [mapGet])⟩

/-- C9 counterexample: builder calls alone can produce a tree whose chapter
Level differs from its nesting depth, because Add may re-attach an
already-built chapter elsewhere; the claim quantified over every
builder-constructed tree is therefore false. -/
theorem builder_level_mismatch :
    BuiltNode builtBadDoc ∧ Node.levelsOk 0 builtBadDoc = false := by
  constructor
  · exact .document "d" "" [] _
      (.cons _ _
        (.chapter "b" 1 .nil (.newSub "b" "a" 0 .nil (.newTop "a")))
        .nil)
  · simp [builtBadDoc, Node.levelsOk, NodeList.levelsOk]

/-- C9 amended: Document.NewChapter creates its chapter with Level 0 and
Chapter.NewChapter creates its child with the parent Level plus one, and
these two operations preserve level-depth consistency; the stronger claim
over arbitrary builder call sequences fails because Add can graft a built
chapter at a different depth. -/
theorem newChapter_level_consistency :
    (∀ (id t : String) (as : List Author) (b : NodeList) (s : String),
        documentNewChapter id t as b s =
          .document id t as (b.push (.chapter s 0 .nil))) ∧
    (∀ (t : String) (l : Int) (b : NodeList) (s : String),
        chapterNewChapter t l b s =
          .chapter t l (b.push (.chapter s (l + 1) .nil))) ∧
    (∀ (id t : String) (as : List Author) (b : NodeList) (s : String),
        Node.levelsOk 0 (.document id t as b) = true →
        Node.levelsOk 0 (documentNewChapter id t as b s) = true) ∧
    (∀ (t : String) (l : Int) (b : NodeList) (s : String) (d : Int),
        Node.levelsOk d (.chapter t l b) = true →
        Node.levelsOk d (chapterNewChapter t l b s) = true) := by
  refine ⟨fun _ _ _ _ _ => rfl, fun _ _ _ _ => rfl, ?_, ?_⟩
  · intro id t as b s h
    simp only [Node.levelsOk, documentNewChapter, levelsOk_push,
      NodeList.levelsOk, Bool.and_eq_true] at h ⊢
    exact ⟨h, by simp [Node.levelsOk, NodeList.levelsOk]⟩
  · intro t l b s d h
    simp only [Node.levelsOk, chapterNewChapter, levelsOk_push,
      NodeList.levelsOk, Bool.and_eq_true, beq_iff_eq] at h ⊢
    obtain ⟨hl, hb⟩ := h
    subst hl
    exact ⟨rfl, hb, by simp [Node.levelsOk, NodeList.levelsOk]⟩

/-- Witness for the amended C9 at a concrete document and chapter. -/
theorem newChapter_level_consistency_witness :
    Node.levelsOk 0 (documentNewChapter "d" "t" [] .nil "a") = true ∧
    Node.levelsOk 0 (chapterNewChapter "a" 0 .nil "b") = true :=
  ⟨newChapter_level_consistency.2.2.1 "d" "t" [] .nil "a"
      (by simp [Node.levelsOk, NodeList.levelsOk]),
   newChapter_level_consistency.2.2.2 "a" 0 .nil "b" 0
      (by simp [Node.levelsOk, NodeList.levelsOk])⟩

/-- C10: a workspace object without a string title or version, and an
author object without one of its three string fields, make Unmarshal abort
(a failed hard type assertion, modelled as none), while an optional
attribute such as a document title just defaults to the empty string. -/
theorem unmarshal_required_string_attrs :
    (∀ m : GoMap, (∀ s, mapGet m "title" ≠ some (.vstr s)) →
        workspaceFromJson m = none) ∧
    (∀ m : GoMap, (∀ s, mapGet m "version" ≠ some (.vstr s)) →
        workspaceFromJson m = none) ∧
    (∀ m : GoMap, optString m typeAttrName = "author" →
        ((∀ s, mapGet m "firstname" ≠ some (.vstr s)) ∨
         (∀ s, mapGet m "lastname" ≠ some (.vstr s)) ∨
         (∀ s, mapGet m "email" ≠ some (.vstr s))) →
        fromJson m = none) ∧
    workspaceFromJson [("version", .vstr "1"), ("format", .vint 1)] = none ∧
    workspaceFromJson [("title", .vint 5), ("version", .vstr "1")] = none ∧
    fromJson [(typeAttrName, .vstr AuthorType), ("firstname", .vstr "f"),
      ("lastname", .vstr "l")] = none ∧
    fromJson [(typeAttrName, .vstr DocumentType), ("authors", .vlist []),
      ("body", .vlist [])] = some (.document "" "" [] .nil) := by
  refine ⟨?_, ?_, ?_, ?_, ?_, ?_, ?_⟩
  · intro m h
    unfold workspaceFromJson
    rw [assertString_eq_none h]
    rfl
  · intro m h
    unfold workspaceFromJson
    cases ht : assertString (mapGet m "title") with
    | none => rfl
    | some t => rw [assertString_eq_none h]; rfl
  · rintro m htype (h | h | h)
    · rw [fromJson_author_eq m htype, assertString_eq_none h]
      rfl
    · rw [fromJson_author_eq m htype]
      cases hf : assertString (mapGet m "firstname") with
      | none => rfl
      | some f => rw [assertString_eq_none h]; rfl
    · rw [fromJson_author_eq m htype]
      cases hf : assertString (mapGet m "firstname") with
      | none => rfl
      | some f =>
          cases hl : assertString (mapGet m "lastname") with
          | none => rfl
          | some l => rw [assertString_eq_none h]; rfl
  · simp [workspaceFromJson, mapGet, assertString]
  · simp [workspaceFromJson, mapGet, assertString]
  · simp [fromJson, optString, mapGet, typeAttrName, AuthorType, assertString]
  · simp [fromJson, fromJsonList, authorsFromJson, optString, optInt, mapGet,
      typeAttrName, DocumentType, assertObjList, mapsOf]

/-- Witness for C10 at concrete maps. -/
theorem unmarshal_required_string_attrs_witness :
    workspaceFromJson [("title", .vstr "t")] = none ∧
    fromJson [(typeAttrName, .vstr "author"), ("firstname", .vstr "f"),
      ("lastname", .vstr "l"), ("email", .vint 3)] = none :=
  ⟨unmarshal_required_string_attrs.2.1 _ (by intro s; simp [mapGet]),
   unmarshal_required_string_attrs.2.2.1 _
     (by simp [optString, mapGet, typeAttrName])
     (Or.inr (Or.inr (by intro s; simp [mapGet, typeAttrName])))⟩

end Wdydoc
